import Mathlib

/-
Verification of the ThreadPool specification.

The repository ships the demonstration caller (src/ThreadPool/Main.cpp) and
the README; the pool engine itself (Threadpool.h: task queue, worker loop,
result handles, lifecycle) is declared and used but its source is not in the
tree.  The engine is therefore modelled from the specification: a pool state
carries the lifecycle, the FIFO task queue, the result-handle table, the list
of all submissions ever accepted, and an execution log recording which worker
executed which task.  Concurrency is modelled by a small-step relation Step in
which any worker may take the next queued task; draining and joining are the
synchronous composite shutdown.
-/

namespace ThreadPool

/-- Error taxonomy of the pool: construction with zero workers, and
submission while the pool is not running. -/
inductive Err where
  | InvalidArgument
  | PoolClosed
  deriving Repr, DecidableEq

/-- Lifecycle states of the pool. -/
inductive Lifecycle where
  | Running
  | Draining
  | Stopped
  deriving Repr, DecidableEq

/-- Position of a lifecycle state along the forward-only chain
Running to Draining to Stopped. -/
def Lifecycle.rank : Lifecycle → Nat
  | .Running => 0
  | .Draining => 1
  | .Stopped => 2

/-- Modelled from the spec: a Task (Threadpool.h is not in the sources) is a
bound zero-argument unit of deferred work; `hid` identifies the result handle
allocated at submission, `run` is the outcome the callable produces when
invoked: a value, or the error message it raises. -/
structure Task (V : Type) where
  hid : Nat
  run : Except String V
  deriving Repr

/-- Modelled from the spec: a Result Handle is Pending until the single
fulfillment transition stores the value or the captured error. -/
inductive HandleState (V : Type) where
  | Pending
  | Fulfilled (out : Except String V)
  deriving Repr

/-- Modelled from the spec: what a worker's dequeue yields — the head task,
the shutdown signal (pool Draining with the queue empty), or nothing yet
(the worker keeps blocking). -/
inductive DequeueResult (V : Type) where
  | task (t : Task V)
  | shutdownSignal
  | blocked
  deriving Repr

/-- Modelled from the spec: the whole pool state (Threadpool.h is not in the
sources).  `subs` lists every callable ever accepted by submit, in submission
order; handle i belongs to submission i.  `execLog` records, in execution
order, pairs (worker, handle id) of executed tasks.  `workersAlive` counts
worker threads not yet joined. -/
structure Pool (V : Type) where
  lifecycle : Lifecycle
  workerCount : Nat
  workersAlive : Nat
  queue : List (Task V)
  handles : Nat → HandleState V
  subs : List (Except String V)
  execLog : List (Nat × Nat)
  completed : Nat

/-- Modelled from the spec: the freshly constructed pool — all N workers
started, empty queue, every handle slot Pending, lifecycle Running. -/
def mkPool (V : Type) (n : Nat) : Pool V :=
  { lifecycle := .Running, workerCount := n, workersAlive := n,
    queue := [], handles := fun _ => .Pending, subs := [],
    execLog := [], completed := 0 }

/-- Modelled from the spec: construction validates the worker count, failing
with InvalidArgument on zero, and otherwise enters Running with N workers. -/
def create (V : Type) (n : Nat) : Except Err (Pool V) :=
  if n = 0 then .error .InvalidArgument else .ok (mkPool V n)

/-- Modelled from the spec: submit binds the callable into a Task, allocates
a fresh Pending handle, appends the Task at the queue tail and returns the
handle id; while not Running it fails with PoolClosed and performs no
enqueue. -/
def submit (p : Pool V) (c : Except String V) : Pool V × Except Err Nat :=
  if p.lifecycle = .Running then
    ({ p with queue := p.queue ++ [⟨p.subs.length, c⟩],
              subs := p.subs ++ [c] }, .ok p.subs.length)
  else (p, .error .PoolClosed)

/-- Modelled from the spec: dequeue removes and returns the queue head in
FIFO order; with an empty queue it yields the shutdown signal when the pool
is Draining and otherwise leaves the worker blocked. -/
def dequeue (p : Pool V) : DequeueResult V × Pool V :=
  match p.queue with
  | t :: rest => (.task t, { p with queue := rest })
  | [] => (if p.lifecycle = .Draining then .shutdownSignal else .blocked, p)

/-- Modelled from the spec: fulfillment writes the outcome into handle i and
bumps the completed-task count. -/
def fulfill (p : Pool V) (i : Nat) (out : Except String V) : Pool V :=
  { p with handles := fun j => if j = i then .Fulfilled out else p.handles j,
           completed := p.completed + 1 }

/-- Modelled from the spec: one iteration of the worker loop by worker w —
dequeue; on a task, invoke it, catch any raised error as the error outcome,
fulfill its handle and record the execution; otherwise do nothing. -/
def workerStep (w : Nat) (p : Pool V) : Pool V :=
  match dequeue p with
  | (.task t, q) =>
      { fulfill q t.hid t.run with execLog := q.execLog ++ [(w, t.hid)] }
  | (_, q) => q

/-- Modelled from the spec: entering Draining from Running; in any other
state the transition is a no-op. -/
def beginDrain (p : Pool V) : Pool V :=
  if p.lifecycle = .Running then { p with lifecycle := .Draining } else p

/-- Modelled from the spec: joining all workers once the drain is complete;
the pool becomes Stopped with no live worker thread. -/
def joinAll (p : Pool V) : Pool V :=
  { p with lifecycle := .Stopped, workersAlive := 0 }

/-- Runs n worker-loop iterations by worker w. -/
def drainLoop (w : Nat) : Nat → Pool V → Pool V
  | 0, p => p
  | n + 1, p => drainLoop w n (workerStep w p)

/-- Modelled from the spec: the drain executes every task still queued. -/
def drainAll (p : Pool V) : Pool V :=
  drainLoop 0 p.queue.length p

/-- Modelled from the spec: shutdown (explicit, or implicit at end of the
owning scope) transitions to Draining, lets all queued tasks finish, then
joins every worker before returning, leaving the pool Stopped. -/
def shutdown (p : Pool V) : Pool V :=
  joinAll (drainAll (beginDrain p))

/-- Modelled from the spec: get on a handle — Pending blocks (no outcome
yet), Fulfilled returns the cached outcome immediately and leaves the
cached state unchanged. -/
def get (h : HandleState V) : Option (Except String V × HandleState V) :=
  match h with
  | .Pending => none
  | .Fulfilled out => some (out, .Fulfilled out)

/-- Submits a list of callables in order. -/
def submitAll (p : Pool V) (cs : List (Except String V)) : Pool V :=
  cs.foldl (fun q c => (submit q c).1) p

/-- Handle ids of the tasks still queued, in queue order. -/
def queueIds (p : Pool V) : List Nat :=
  p.queue.map Task.hid

/-- Handle ids of the tasks already executed, in execution order. -/
def logIds (p : Pool V) : List Nat :=
  p.execLog.map Prod.snd

/-- Every pool field except the handle table: the part of the state whose
evolution must not depend on what callers do with their handles. -/
def obs (p : Pool V) :
    Lifecycle × Nat × Nat × List (Task V) × List (Except String V) ×
      List (Nat × Nat) × Nat :=
  (p.lifecycle, p.workerCount, p.workersAlive, p.queue, p.subs,
    p.execLog, p.completed)

/-- Small-step relation on pool states: a submission by some caller, one
worker-loop iteration by a worker of the pool, the transition into Draining,
or the final join once Draining with an empty queue. -/
inductive Step : Pool V → Pool V → Prop where
  | doSubmit (p : Pool V) (c : Except String V) : Step p (submit p c).1
  | doWork (p : Pool V) (w : Nat) (hw : w < p.workerCount) :
      Step p (workerStep w p)
  | doDrain (p : Pool V) (h : p.lifecycle = .Running) : Step p (beginDrain p)
  | doJoin (p : Pool V) (h : p.lifecycle = .Draining) (hq : p.queue = []) :
      Step p (joinAll p)

/-- Pool states reachable from some valid construction. -/
def Reachable (p : Pool V) : Prop :=
  ∃ n, 1 ≤ n ∧ Relation.ReflTransGen Step (mkPool V n) p

/-- Master invariant of reachable pool states. -/
structure Inv (p : Pool V) : Prop where
  once : (queueIds p ++ logIds p).Perm (List.range p.subs.length)
  qruns : ∀ t ∈ p.queue, p.subs[t.hid]? = some t.run
  hdone : ∀ i ∈ logIds p,
    ∃ c, p.subs[i]? = some c ∧ p.handles i = HandleState.Fulfilled c
  hpending : ∀ i : Nat, i ∉ logIds p → p.handles i = HandleState.Pending
  alive : p.workersAlive =
    if p.lifecycle = Lifecycle.Stopped then 0 else p.workerCount
  stopEmpty : p.lifecycle = Lifecycle.Stopped → p.queue = []
  compLog : p.completed = p.execLog.length
  wval : ∀ e ∈ p.execLog, e.1 < p.workerCount
  wpos : 1 ≤ p.workerCount

/-- A submission to a Running pool appends the new task at the queue tail
and records the callable. -/
theorem submit_of_running (p : Pool V) (c : Except String V)
    (h : p.lifecycle = .Running) :
    submit p c =
      ({ p with queue := p.queue ++ [⟨p.subs.length, c⟩],
                subs := p.subs ++ [c] }, .ok p.subs.length) := by
  simp [submit, h]

/-- A submission to a pool that is not Running is rejected and changes
nothing. -/
theorem submit_of_not_running (p : Pool V) (c : Except String V)
    (h : ¬ p.lifecycle = .Running) :
    submit p c = (p, .error .PoolClosed) := by
  simp [submit, h]

/-- One worker-loop iteration on a nonempty queue pops the head, fulfills
its handle with the outcome of its callable and logs the execution. -/
theorem workerStep_cons (w : Nat) (p : Pool V) (t : Task V)
    (rest : List (Task V)) (h : p.queue = t :: rest) :
    workerStep w p =
      { p with queue := rest,
               handles := fun j => if j = t.hid then HandleState.Fulfilled t.run
                 else p.handles j,
               execLog := p.execLog ++ [(w, t.hid)],
               completed := p.completed + 1 } := by
  have hd : dequeue p = (DequeueResult.task t, { p with queue := rest }) := by
    simp [dequeue, h]
  simp [workerStep, hd, fulfill]

/-- One worker-loop iteration on an empty queue leaves the pool unchanged
(the worker blocks or sees the shutdown signal). -/
theorem workerStep_nil (w : Nat) (p : Pool V) (h : p.queue = []) :
    workerStep w p = p := by
  by_cases hd : p.lifecycle = .Draining <;>
    simp [workerStep, dequeue, h, hd]

theorem workerStep_workerCount (w : Nat) (p : Pool V) :
    (workerStep w p).workerCount = p.workerCount := by
  match hq : p.queue with
  | [] => rw [workerStep_nil w p hq]
  | t :: rest => rw [workerStep_cons w p t rest hq]

/-- Draining the whole queue empties it, preserves every field not touched
by execution, appends one log entry per queued task in queue order, and
advances the completed count by the queue length. -/
theorem drainLoop_spec (w : Nat) :
    ∀ (n : Nat) (p : Pool V), p.queue.length = n →
      (drainLoop w n p).queue = [] ∧
      (drainLoop w n p).subs = p.subs ∧
      (drainLoop w n p).lifecycle = p.lifecycle ∧
      (drainLoop w n p).workerCount = p.workerCount ∧
      (drainLoop w n p).workersAlive = p.workersAlive ∧
      (drainLoop w n p).execLog =
        p.execLog ++ p.queue.map (fun t => (w, t.hid)) ∧
      (drainLoop w n p).completed = p.completed + p.queue.length := by
  intro n
  induction n with
  | zero =>
      intro p h
      have hq : p.queue = [] := List.length_eq_zero.mp h
      simp [drainLoop, hq]
  | succ n ih =>
      intro p h
      match hq : p.queue with
      | [] => rw [hq] at h; simp at h
      | t :: rest =>
        have hws := workerStep_cons w p t rest hq
        have hlen : (workerStep w p).queue.length = n := by
          rw [hws]
          rw [hq] at h
          simpa using Nat.succ_injective h
        obtain ⟨h1, h2, h3, h4, h5, h6, h7⟩ := ih (workerStep w p) hlen
        have hstep : drainLoop w (n + 1) p = drainLoop w n (workerStep w p) :=
          rfl
        rw [hstep]
        refine ⟨h1, ?_, ?_, ?_, ?_, ?_, ?_⟩
        · rw [h2, hws]
        · rw [h3, hws]
        · rw [h4, hws]
        · rw [h5, hws]
        · rw [h6, hws]
          simp [List.append_assoc]
        · rw [h7, hws]
          simp
          omega

theorem drainAll_queue (p : Pool V) : (drainAll p).queue = [] :=
  (drainLoop_spec 0 p.queue.length p rfl).1

theorem drainAll_subs (p : Pool V) : (drainAll p).subs = p.subs :=
  (drainLoop_spec 0 p.queue.length p rfl).2.1

theorem drainAll_lifecycle (p : Pool V) :
    (drainAll p).lifecycle = p.lifecycle :=
  (drainLoop_spec 0 p.queue.length p rfl).2.2.1

theorem drainAll_workersAlive (p : Pool V) :
    (drainAll p).workersAlive = p.workersAlive :=
  (drainLoop_spec 0 p.queue.length p rfl).2.2.2.2.1

theorem drainAll_workerCount (p : Pool V) :
    (drainAll p).workerCount = p.workerCount :=
  (drainLoop_spec 0 p.queue.length p rfl).2.2.2.1

theorem beginDrain_queue (p : Pool V) : (beginDrain p).queue = p.queue := by
  by_cases h : p.lifecycle = .Running <;> simp [beginDrain, h]

theorem beginDrain_subs (p : Pool V) : (beginDrain p).subs = p.subs := by
  by_cases h : p.lifecycle = .Running <;> simp [beginDrain, h]

theorem beginDrain_workerCount (p : Pool V) :
    (beginDrain p).workerCount = p.workerCount := by
  by_cases h : p.lifecycle = .Running <;> simp [beginDrain, h]

/-- Shutdown always leaves the pool Stopped. -/
theorem shutdown_lifecycle (p : Pool V) :
    (shutdown p).lifecycle = .Stopped := rfl

/-- Shutdown always joins every worker. -/
theorem shutdown_workersAlive (p : Pool V) :
    (shutdown p).workersAlive = 0 := rfl

/-- Shutdown drains the queue completely. -/
theorem shutdown_queue (p : Pool V) : (shutdown p).queue = [] := by
  show (drainAll (beginDrain p)).queue = []
  exact drainAll_queue _

/-- Shutdown neither adds nor forgets submissions. -/
theorem shutdown_subs (p : Pool V) : (shutdown p).subs = p.subs := by
  show (drainAll (beginDrain p)).subs = p.subs
  rw [drainAll_subs, beginDrain_subs]

/-- Every queued task's handle id is one of the allocated ids. -/
theorem inv_mem_queueIds_lt (p : Pool V) (hp : Inv p) (i : Nat)
    (h : i ∈ queueIds p) : i < p.subs.length :=
  List.mem_range.mp (hp.once.mem_iff.mp (List.mem_append.mpr (Or.inl h)))

/-- Every executed task's handle id is one of the allocated ids. -/
theorem inv_mem_logIds_lt (p : Pool V) (hp : Inv p) (i : Nat)
    (h : i ∈ logIds p) : i < p.subs.length :=
  List.mem_range.mp (hp.once.mem_iff.mp (List.mem_append.mpr (Or.inr h)))

/-- No handle id occurs twice across the queue and the execution log. -/
theorem inv_nodup (p : Pool V) (hp : Inv p) :
    (queueIds p ++ logIds p).Nodup :=
  hp.once.nodup_iff.mpr (List.nodup_range _)

/-- The freshly constructed pool satisfies the master invariant. -/
theorem inv_mkPool (n : Nat) (h : 1 ≤ n) : Inv (mkPool V n) := by
  refine ⟨?_, ?_, ?_, ?_, ?_, ?_, ?_, ?_, ?_⟩
  · simp [queueIds, logIds, mkPool]
  · simp [mkPool]
  · simp [logIds, mkPool]
  · intro i _
    rfl
  · simp [mkPool]
  · intro _
    rfl
  · rfl
  · simp [mkPool]
  · exact h

/-- The master invariant is preserved by every step of the pool. -/
theorem inv_step (p q : Pool V) (hp : Inv p) (hs : Step p q) : Inv q := by
  cases hs with
  | doSubmit c =>
      by_cases hl : p.lifecycle = .Running
      · have hq1 : (submit p c).1 =
            { p with queue := p.queue ++ [⟨p.subs.length, c⟩],
                     subs := p.subs ++ [c] } := by
          rw [submit_of_running p c hl]
        rw [hq1]
        refine ⟨?_, ?_, ?_, ?_, ?_, ?_, hp.compLog, hp.wval, hp.wpos⟩
        · show ((p.queue ++ [Task.mk p.subs.length c]).map Task.hid ++
              logIds p).Perm (List.range (p.subs ++ [c]).length)
          rw [List.map_append]
          have hcm : ([p.subs.length] ++ logIds p).Perm
              (logIds p ++ [p.subs.length]) := List.perm_append_comm
          have h1 : ((p.queue.map Task.hid ++
                [(Task.mk p.subs.length c : Task V).hid]) ++ logIds p).Perm
              ((queueIds p ++ logIds p) ++ [p.subs.length]) := by
            rw [List.append_assoc, queueIds, List.append_assoc]
            exact List.Perm.append_left _ hcm
          have h2 : ((queueIds p ++ logIds p) ++ [p.subs.length]).Perm
              (List.range p.subs.length ++ [p.subs.length]) :=
            hp.once.append_right _
          have h3 : List.range (p.subs ++ [c]).length =
              List.range p.subs.length ++ [p.subs.length] := by
            simp [List.range_succ]
          rw [h3]
          exact h1.trans h2
        · intro t ht
          rcases List.mem_append.mp ht with hin | hin
          · have hlt : t.hid < p.subs.length :=
              inv_mem_queueIds_lt p hp t.hid
                (List.mem_map_of_mem Task.hid hin)
            show (p.subs ++ [c])[t.hid]? = some t.run
            rw [List.getElem?_append_left hlt]
            exact hp.qruns t hin
          · have : t = ⟨p.subs.length, c⟩ := List.mem_singleton.mp hin
            subst this
            show (p.subs ++ [c])[p.subs.length]? = some c
            simp
        · intro i hi
          have hi2 : i ∈ logIds p := hi
          obtain ⟨c0, hc1, hc2⟩ := hp.hdone i hi2
          have hlt : i < p.subs.length := inv_mem_logIds_lt p hp i hi2
          refine ⟨c0, ?_, hc2⟩
          show (p.subs ++ [c])[i]? = some c0
          rw [List.getElem?_append_left hlt]
          exact hc1
        · intro i hi
          exact hp.hpending i hi
        · show p.workersAlive =
            if p.lifecycle = Lifecycle.Stopped then 0 else p.workerCount
          exact hp.alive
        · intro h
          have : p.lifecycle = Lifecycle.Stopped := h
          rw [hl] at this
          exact absurd this (by decide)
      · rw [submit_of_not_running p c hl]
        exact hp
  | doWork w hw =>
      match hq : p.queue with
      | [] =>
          rw [workerStep_nil w p hq]
          exact hp
      | t :: rest =>
          rw [workerStep_cons w p t rest hq]
          have hmemq : t.hid ∈ queueIds p := by
            simp [queueIds, hq]
          have hnd := inv_nodup p hp
          have hdisj := (List.nodup_append.mp hnd).2.2
          have hnotlog : t.hid ∉ logIds p := hdisj hmemq
          have hheadrun : p.subs[t.hid]? = some t.run :=
            hp.qruns t (by rw [hq]; exact List.mem_cons_self t rest)
          refine ⟨?_, ?_, ?_, ?_, hp.alive, ?_, ?_, ?_, hp.wpos⟩
          · show (rest.map Task.hid ++
                (p.execLog ++ [(w, t.hid)]).map Prod.snd).Perm
              (List.range p.subs.length)
            have hbase : (t.hid :: (rest.map Task.hid ++ logIds p)).Perm
                (List.range p.subs.length) := by
              have := hp.once
              rw [queueIds, hq, List.map_cons] at this
              exact this
            have h1 : (rest.map Task.hid ++
                  (logIds p ++ [t.hid])).Perm
                (t.hid :: (rest.map Task.hid ++ logIds p)) := by
              rw [← List.append_assoc]
              exact List.perm_append_comm
            rw [List.map_append]
            exact h1.trans hbase
          · intro t2 ht2
            exact hp.qruns t2 (by rw [hq]; exact List.mem_cons_of_mem t ht2)
          · intro i hi
            have hi2 : i ∈ logIds p ∨ i = t.hid := by
              have : i ∈ logIds p ++ [t.hid] := by
                simpa [logIds] using hi
              simpa using List.mem_append.mp this
            rcases hi2 with hin | hin
            · obtain ⟨c0, hc1, hc2⟩ := hp.hdone i hin
              have hne : i ≠ t.hid := fun he => hnotlog (he ▸ hin)
              refine ⟨c0, hc1, ?_⟩
              show (if i = t.hid then HandleState.Fulfilled t.run
                else p.handles i) = HandleState.Fulfilled c0
              rw [if_neg hne]
              exact hc2
            · subst hin
              refine ⟨t.run, hheadrun, ?_⟩
              show (if t.hid = t.hid then HandleState.Fulfilled t.run
                else p.handles t.hid) = HandleState.Fulfilled t.run
              rw [if_pos rfl]
          · intro i hi
            have hmm : i ∈ logIds p ∨ i = t.hid → False := by
              intro hcase
              apply hi
              show i ∈ (p.execLog ++ [(w, t.hid)]).map Prod.snd
              rw [List.map_append]
              rcases hcase with hin | he
              · exact List.mem_append.mpr (Or.inl hin)
              · exact List.mem_append.mpr (Or.inr (by simp [he]))
            have hsplit : i ∉ logIds p ∧ i ≠ t.hid :=
              ⟨fun hin => hmm (Or.inl hin), fun he => hmm (Or.inr he)⟩
            show (if i = t.hid then HandleState.Fulfilled t.run
              else p.handles i) = HandleState.Pending
            rw [if_neg hsplit.2]
            exact hp.hpending i hsplit.1
          · intro h
            have hpq := hp.stopEmpty h
            rw [hq] at hpq
            exact absurd hpq (by simp)
          · show p.completed + 1 = (p.execLog ++ [(w, t.hid)]).length
            simp [hp.compLog]
          · intro e he
            rcases List.mem_append.mp he with hin | hin
            · exact hp.wval e hin
            · have : e = (w, t.hid) := List.mem_singleton.mp hin
              rw [this]
              exact hw
  | doDrain h =>
      have hb : beginDrain p = { p with lifecycle := .Draining } := by
        simp [beginDrain, h]
      rw [hb]
      refine ⟨hp.once, hp.qruns, hp.hdone, hp.hpending, ?_, ?_,
        hp.compLog, hp.wval, hp.wpos⟩
      · have ha := hp.alive
        rw [h] at ha
        simpa using ha
      · intro hst
        have : Lifecycle.Draining = Lifecycle.Stopped := hst
        exact absurd this (by decide)
  | doJoin h hqe =>
      refine ⟨hp.once, hp.qruns, hp.hdone, hp.hpending, ?_, ?_,
        hp.compLog, hp.wval, hp.wpos⟩
      · show (0 : Nat) =
          if Lifecycle.Stopped = Lifecycle.Stopped then 0 else p.workerCount
        simp
      · intro _
        exact hqe

/-- The master invariant is preserved along any run of the pool. -/
theorem inv_rtg (p q : Pool V) (hp : Inv p)
    (h : Relation.ReflTransGen Step p q) : Inv q := by
  induction h with
  | refl => exact hp
  | tail h1 h2 ih => exact inv_step _ _ ih h2

/-- Every reachable pool state satisfies the master invariant. -/
theorem inv_reachable (p : Pool V) (h : Reachable p) : Inv p := by
  obtain ⟨n, hn, hrtg⟩ := h
  exact inv_rtg _ _ (inv_mkPool n hn) hrtg

/-- Any sequence of submissions is a run of the pool. -/
theorem rtg_submitAll (cs : List (Except String V)) :
    ∀ (p : Pool V), Relation.ReflTransGen Step p (submitAll p cs) := by
  induction cs with
  | nil => intro p; exact Relation.ReflTransGen.refl
  | cons c cs ih =>
      intro p
      have hstep : Step p (submit p c).1 := Step.doSubmit p c
      have heq : submitAll p (c :: cs) = submitAll (submit p c).1 cs := rfl
      rw [heq]
      exact Relation.ReflTransGen.head hstep (ih (submit p c).1)

/-- Any number of worker-loop iterations is a run of the pool. -/
theorem rtg_drainLoop (w n : Nat) :
    ∀ (p : Pool V), w < p.workerCount →
      Relation.ReflTransGen Step p (drainLoop w n p) := by
  induction n with
  | zero => intro p _; exact Relation.ReflTransGen.refl
  | succ n ih =>
      intro p hw
      exact Relation.ReflTransGen.head (Step.doWork p w hw)
        (ih (workerStep w p) (by rw [workerStep_workerCount]; exact hw))

/-- Draining the whole queue is a run of the pool. -/
theorem rtg_drainAll (p : Pool V) (hw : 0 < p.workerCount) :
    Relation.ReflTransGen Step p (drainAll p) :=
  rtg_drainLoop 0 p.queue.length p hw

theorem beginDrain_of_not_running (p : Pool V)
    (h : ¬ p.lifecycle = .Running) : beginDrain p = p := by
  simp [beginDrain, h]

theorem drainAll_of_empty (p : Pool V) (h : p.queue = []) : drainAll p = p := by
  simp [drainAll, h, drainLoop]

/-- Joining a pool that is already stopped with no live worker changes
nothing. -/
theorem joinAll_eq_self (p : Pool V) (h1 : p.lifecycle = .Stopped)
    (h2 : p.workersAlive = 0) : joinAll p = p := by
  cases p with
  | mk lc wc wa qu hd sb lg cp =>
      have e1 : lc = .Stopped := h1
      have e2 : wa = 0 := h2
      subst e1
      subst e2
      rfl

/-- Shutdown is a run of the pool: the drain transition, the execution of
every queued task, and the final join. -/
theorem rtg_shutdown (p : Pool V) (hp : Inv p) :
    Relation.ReflTransGen Step p (shutdown p) := by
  have hwc : 0 < p.workerCount := hp.wpos
  cases hl : p.lifecycle with
  | Running =>
      have hstep1 : Step p (beginDrain p) := Step.doDrain p hl
      have hb : beginDrain p = { p with lifecycle := .Draining } := by
        simp [beginDrain, hl]
      have hwc2 : 0 < (beginDrain p).workerCount := by
        rw [beginDrain_workerCount]; exact hwc
      have hrtg2 := rtg_drainAll (beginDrain p) hwc2
      have hlc : (drainAll (beginDrain p)).lifecycle = .Draining := by
        rw [drainAll_lifecycle, hb]
      have hstep3 : Step (drainAll (beginDrain p)) (shutdown p) :=
        Step.doJoin _ hlc (drainAll_queue _)
      exact Relation.ReflTransGen.head hstep1 (hrtg2.tail hstep3)
  | Draining =>
      have hb : beginDrain p = p :=
        beginDrain_of_not_running p (by rw [hl]; decide)
      have hrtg2 := rtg_drainAll p hwc
      have hlc : (drainAll p).lifecycle = .Draining := by
        rw [drainAll_lifecycle]; exact hl
      have hstep3 : Step (drainAll p) (joinAll (drainAll p)) :=
        Step.doJoin _ hlc (drainAll_queue p)
      show Relation.ReflTransGen Step p (joinAll (drainAll (beginDrain p)))
      rw [hb]
      exact hrtg2.tail hstep3
  | Stopped =>
      have hq := hp.stopEmpty hl
      have ha : p.workersAlive = 0 := by
        have := hp.alive
        rw [hl] at this
        simpa using this
      have hfix : shutdown p = p := by
        unfold shutdown
        rw [beginDrain_of_not_running p (by rw [hl]; decide),
          drainAll_of_empty p hq, joinAll_eq_self p hl ha]
      rw [hfix]

/-- The master invariant survives a full shutdown. -/
theorem inv_shutdown (p : Pool V) (hp : Inv p) : Inv (shutdown p) :=
  inv_rtg _ _ hp (rtg_shutdown p hp)

/-- In an invariant state with an empty queue, every allocated handle is
fulfilled with the outcome of its submitted callable. -/
theorem inv_all_fulfilled (q : Pool V) (hq : Inv q) (he : q.queue = []) :
    ∀ i, i < q.subs.length →
      ∃ c, q.subs[i]? = some c ∧ q.handles i = HandleState.Fulfilled c := by
  intro i hi
  have hqi : queueIds q = [] := by simp [queueIds, he]
  have hperm : (logIds q).Perm (List.range q.subs.length) := by
    have h0 := hq.once
    rw [hqi, List.nil_append] at h0
    exact h0
  have hmem : i ∈ logIds q :=
    hperm.mem_iff.mpr (List.mem_range.mpr hi)
  exact hq.hdone i hmem

/-- Submitting a list of callables to a Running pool records exactly those
callables, in order, and leaves the pool Running. -/
theorem submitAll_running (cs : List (Except String V)) :
    ∀ (p : Pool V), p.lifecycle = .Running →
      (submitAll p cs).subs = p.subs ++ cs ∧
      (submitAll p cs).lifecycle = .Running := by
  induction cs with
  | nil =>
      intro p h
      exact ⟨by simp [submitAll], h⟩
  | cons c cs ih =>
      intro p h
      have hsub := submit_of_running p c h
      have h1 : (submit p c).1.lifecycle = .Running := by rw [hsub]; exact h
      have heq : submitAll p (c :: cs) = submitAll (submit p c).1 cs := rfl
      obtain ⟨ha, hb⟩ := ih (submit p c).1 h1
      constructor
      · rw [heq, ha, hsub]
        simp
      · rw [heq]
        exact hb

/-- Each id below n occurs exactly once in `List.range n`, and other ids
not at all. -/
theorem count_range_eq (n i : Nat) :
    (List.range n).count i = if i < n then 1 else 0 := by
  induction n with
  | zero => simp
  | succ n ih =>
      rw [List.range_succ, List.count_append, ih]
      have hs : [n].count i = if i = n then 1 else 0 := by
        simp [List.count_cons]
        split_ifs with h1 h2 h3 <;> first | rfl | omega
      rw [hs]
      split_ifs <;> omega

theorem workerStep_lifecycle (w : Nat) (p : Pool V) :
    (workerStep w p).lifecycle = p.lifecycle := by
  match hq : p.queue with
  | [] => rw [workerStep_nil w p hq]
  | t :: rest => rw [workerStep_cons w p t rest hq]

/-- Two pools agree on `obs` exactly when they agree on every field except
the handle table. -/
theorem obs_eq_iff (p q : Pool V) :
    obs p = obs q ↔
      (p.lifecycle = q.lifecycle ∧ p.workerCount = q.workerCount ∧
       p.workersAlive = q.workersAlive ∧ p.queue = q.queue ∧
       p.subs = q.subs ∧ p.execLog = q.execLog ∧
       p.completed = q.completed) := by
  simp [obs, Prod.ext_iff]

theorem obs_workerStep_congr (w : Nat) (p q : Pool V) (h : obs p = obs q) :
    obs (workerStep w p) = obs (workerStep w q) := by
  obtain ⟨h1, h2, h3, h4, h5, h6, h7⟩ := (obs_eq_iff p q).mp h
  match hq : p.queue with
  | [] =>
      have hq2 : q.queue = [] := by rw [← h4]; exact hq
      rw [workerStep_nil w p hq, workerStep_nil w q hq2]
      exact h
  | t :: rest =>
      have hq2 : q.queue = t :: rest := by rw [← h4]; exact hq
      rw [workerStep_cons w p t rest hq, workerStep_cons w q t rest hq2]
      exact (obs_eq_iff _ _).mpr
        ⟨h1, h2, h3, rfl, h5, by rw [h6], by rw [h7]⟩

theorem obs_drainLoop_congr (w : Nat) :
    ∀ (n : Nat) (p q : Pool V), obs p = obs q →
      obs (drainLoop w n p) = obs (drainLoop w n q) := by
  intro n
  induction n with
  | zero => intro p q h; exact h
  | succ n ih =>
      intro p q h
      exact ih (workerStep w p) (workerStep w q) (obs_workerStep_congr w p q h)

theorem obs_drainAll_congr (p q : Pool V) (h : obs p = obs q) :
    obs (drainAll p) = obs (drainAll q) := by
  have h4 : p.queue = q.queue := ((obs_eq_iff p q).mp h).2.2.2.1
  show obs (drainLoop 0 p.queue.length p) = obs (drainLoop 0 q.queue.length q)
  rw [h4]
  exact obs_drainLoop_congr 0 q.queue.length p q h

theorem obs_beginDrain_congr (p q : Pool V) (h : obs p = obs q) :
    obs (beginDrain p) = obs (beginDrain q) := by
  obtain ⟨h1, h2, h3, h4, h5, h6, h7⟩ := (obs_eq_iff p q).mp h
  by_cases hl : p.lifecycle = .Running
  · have hl2 : q.lifecycle = .Running := by rw [← h1]; exact hl
    simp only [beginDrain, hl, hl2, if_pos]
    exact (obs_eq_iff _ _).mpr ⟨rfl, h2, h3, h4, h5, h6, h7⟩
  · have hl2 : ¬ q.lifecycle = .Running := by rw [← h1]; exact hl
    rw [beginDrain_of_not_running p hl, beginDrain_of_not_running q hl2]
    exact h

theorem obs_joinAll_congr (p q : Pool V) (h : obs p = obs q) :
    obs (joinAll p) = obs (joinAll q) := by
  obtain ⟨h1, h2, h3, h4, h5, h6, h7⟩ := (obs_eq_iff p q).mp h
  exact (obs_eq_iff _ _).mpr ⟨rfl, h2, rfl, h4, h5, h6, h7⟩

/-- The execution-relevant part of the state after shutdown is a function of
the execution-relevant part before it: the handle table never steers it. -/
theorem obs_shutdown_congr (p q : Pool V) (h : obs p = obs q) :
    obs (shutdown p) = obs (shutdown q) :=
  obs_joinAll_congr _ _ (obs_drainAll_congr _ _ (obs_beginDrain_congr _ _ h))

/-- C4: the Task Queue is FIFO — for every queue state, submission appends
the new task at the tail; whenever a Task is available, dequeue removes and
returns the head; and when the Pool is Draining with an empty queue,
dequeue returns the shutdown signal instead of a Task. -/
theorem claim_C4 (p : Pool V) :
    (p.lifecycle = .Running → ∀ c,
      (submit p c).1.queue = p.queue ++ [Task.mk p.subs.length c]) ∧
    (∀ t rest, p.queue = t :: rest →
      dequeue p = (DequeueResult.task t, { p with queue := rest })) ∧
    (p.lifecycle = .Draining → p.queue = [] →
      dequeue p = (DequeueResult.shutdownSignal, p)) := by
  refine ⟨?_, ?_, ?_⟩
  · intro h c
    rw [submit_of_running p c h]
  · intro t rest h
    simp [dequeue, h]
  · intro h1 h2
    simp [dequeue, h1, h2]

/-- Witness for C4 at a concrete pool: a submitted task lands at the tail,
is dequeued from the head, and a drained empty pool yields the shutdown
signal. -/
theorem claim_C4_witness :
    ((mkPool Nat 2).lifecycle = .Running ∧
      (submit (mkPool Nat 2) (Except.ok 5)).1.queue =
        (mkPool Nat 2).queue ++
          [Task.mk (mkPool Nat 2).subs.length (Except.ok 5)]) ∧
    ((submit (mkPool Nat 2) (Except.ok 5)).1.queue =
        Task.mk 0 (Except.ok 5) :: [] ∧
      dequeue (submit (mkPool Nat 2) (Except.ok 5)).1 =
        (DequeueResult.task (Task.mk 0 (Except.ok 5)),
          { (submit (mkPool Nat 2) (Except.ok 5)).1 with queue := [] })) ∧
    ((beginDrain (mkPool Nat 1)).lifecycle = .Draining ∧
      (beginDrain (mkPool Nat 1)).queue = [] ∧
      dequeue (beginDrain (mkPool Nat 1)) =
        (DequeueResult.shutdownSignal, beginDrain (mkPool Nat 1))) :=
  ⟨⟨rfl, (claim_C4 (mkPool Nat 2)).1 rfl (Except.ok 5)⟩,
   ⟨rfl, (claim_C4 (submit (mkPool Nat 2) (Except.ok 5)).1).2.1
      (Task.mk 0 (Except.ok 5)) [] rfl⟩,
   ⟨rfl, rfl, (claim_C4 (beginDrain (mkPool Nat 1))).2.2 rfl rfl⟩⟩

/-- C5: submitting to a Pool that is not Running (Draining or Stopped)
fails with PoolClosed and performs no enqueue — the queue, the handle
table, the completed count, indeed the whole state, are unchanged. -/
theorem claim_C5 (p : Pool V) (c : Except String V)
    (h : p.lifecycle ≠ .Running) :
    (submit p c).2 = Except.error Err.PoolClosed ∧
    (submit p c).1.queue = p.queue ∧
    (submit p c).1.handles = p.handles ∧
    (submit p c).1.completed = p.completed ∧
    (submit p c).1 = p := by
  rw [submit_of_not_running p c h]
  exact ⟨rfl, rfl, rfl, rfl, rfl⟩

/-- Witness for C5: submitting to a Draining pool is rejected and the pool
state is untouched. -/
theorem claim_C5_witness :
    (beginDrain (mkPool Nat 1)).lifecycle ≠ Lifecycle.Running ∧
    (submit (beginDrain (mkPool Nat 1)) (Except.ok 3)).2 =
      Except.error Err.PoolClosed ∧
    (submit (beginDrain (mkPool Nat 1)) (Except.ok 3)).1 =
      beginDrain (mkPool Nat 1) :=
  ⟨by decide,
   (claim_C5 (beginDrain (mkPool Nat 1)) (Except.ok 3) (by decide)).1,
   (claim_C5 (beginDrain (mkPool Nat 1)) (Except.ok 3) (by decide)).2.2.2.2⟩

/-- C6: get is idempotent — on a fulfilled Handle it returns immediately
with the cached outcome, does not change the handle, and a repeated call
yields the identical outcome. -/
theorem claim_C6 (V : Type) :
    (∀ o : Except String V,
      get (HandleState.Fulfilled o) = some (o, HandleState.Fulfilled o)) ∧
    (∀ (h h2 : HandleState V) (o : Except String V),
      get h = some (o, h2) → h2 = h ∧ get h2 = some (o, h2)) := by
  constructor
  · intro o
    rfl
  · intro h h2 o hg
    cases h with
    | Pending => simp [get] at hg
    | Fulfilled out =>
        simp only [get] at hg
        have hp2 : (out, HandleState.Fulfilled out) = (o, h2) :=
          Option.some.inj hg
        have e1 : out = o := congrArg Prod.fst hp2
        have e2 : HandleState.Fulfilled out = h2 := congrArg Prod.snd hp2
        subst e1
        subst e2
        exact ⟨rfl, rfl⟩

/-- Witness for C6: two consecutive calls on a concrete fulfilled handle
return the identical cached value. -/
theorem claim_C6_witness :
    HandleState.Fulfilled (Except.ok (3 : Nat)) =
        HandleState.Fulfilled (Except.ok 3) ∧
      get (HandleState.Fulfilled (Except.ok (3 : Nat))) =
        some (Except.ok 3, HandleState.Fulfilled (Except.ok 3)) :=
  (claim_C6 Nat).2 (HandleState.Fulfilled (Except.ok 3))
    (HandleState.Fulfilled (Except.ok 3)) (Except.ok 3) rfl

/-- C7: construction with workerCount zero fails with InvalidArgument;
construction with any workerCount at least one succeeds, starts all N
workers and leaves the Pool in the Running state. -/
theorem claim_C7 (V : Type) :
    create V 0 = Except.error Err.InvalidArgument ∧
    ∀ n : Nat, 1 ≤ n →
      create V n = Except.ok (mkPool V n) ∧
      (mkPool V n).lifecycle = .Running ∧
      (mkPool V n).workersAlive = n ∧
      (mkPool V n).workerCount = n := by
  constructor
  · rfl
  · intro n hn
    have hne : n ≠ 0 := by omega
    exact ⟨by simp [create, hne], rfl, rfl, rfl⟩

/-- Witness for C7: create 0 fails, create 8 succeeds with 8 running
workers. -/
theorem claim_C7_witness :
    create Nat 0 = Except.error Err.InvalidArgument ∧
    (1 : Nat) ≤ 8 ∧
    (create Nat 8 = Except.ok (mkPool Nat 8) ∧
      (mkPool Nat 8).lifecycle = .Running ∧
      (mkPool Nat 8).workersAlive = 8 ∧
      (mkPool Nat 8).workerCount = 8) :=
  ⟨(claim_C7 Nat).1, by decide, (claim_C7 Nat).2 8 (by decide)⟩

/-- C9: the lifecycle state machine moves strictly forward — no step of the
pool decreases the rank along Running, Draining, Stopped, so there is no
cycle and no re-entry — and shutdown is idempotent: a second call leaves
exactly the state of the first. -/
theorem claim_C9 (V : Type) :
    (∀ p q : Pool V, Step p q → p.lifecycle.rank ≤ q.lifecycle.rank) ∧
    (∀ p : Pool V, shutdown (shutdown p) = shutdown p) := by
  constructor
  · intro p q hs
    cases hs with
    | doSubmit c =>
        by_cases hl : p.lifecycle = .Running
        · rw [submit_of_running p c hl]
        · rw [submit_of_not_running p c hl]
    | doWork w hw =>
        rw [workerStep_lifecycle]
    | doDrain h =>
        have hb : beginDrain p = { p with lifecycle := .Draining } := by
          simp [beginDrain, h]
        rw [hb, h]
        show Lifecycle.Running.rank ≤ Lifecycle.Draining.rank
        decide
    | doJoin h hq =>
        rw [h]
        show Lifecycle.Draining.rank ≤ Lifecycle.Stopped.rank
        decide
  · intro p
    have h1 : (shutdown p).lifecycle = .Stopped := rfl
    have h2 : (shutdown p).queue = [] := shutdown_queue p
    have h3 : (shutdown p).workersAlive = 0 := rfl
    show joinAll (drainAll (beginDrain (shutdown p))) = shutdown p
    rw [beginDrain_of_not_running _ (by rw [h1]; decide),
      drainAll_of_empty _ h2, joinAll_eq_self _ h1 h3]

/-- Witness for C9: the concrete drain transition does not decrease the
rank, and shutting a concrete pool down twice equals shutting it down
once. -/
theorem claim_C9_witness :
    (mkPool Nat 1).lifecycle.rank ≤ (beginDrain (mkPool Nat 1)).lifecycle.rank ∧
    shutdown (shutdown (mkPool Nat 1)) = shutdown (mkPool Nat 1) :=
  ⟨(claim_C9 Nat).1 (mkPool Nat 1) (beginDrain (mkPool Nat 1))
      (Step.doDrain (mkPool Nat 1) rfl),
   (claim_C9 Nat).2 (mkPool Nat 1)⟩

/-- C2: by the time shutdown returns on any reachable pool, no worker
thread remains alive, the pool is Stopped with an empty queue, and every
Task that was ever enqueued has completed — its handle is fulfilled with
its callable's outcome; no accepted task is silently discarded. -/
theorem claim_C2 (p : Pool V) (hr : Reachable p) :
    (shutdown p).workersAlive = 0 ∧
    (shutdown p).lifecycle = .Stopped ∧
    (shutdown p).queue = [] ∧
    ∀ i, i < p.subs.length →
      ∃ c, p.subs[i]? = some c ∧
        (shutdown p).handles i = HandleState.Fulfilled c := by
  have hp := inv_reachable p hr
  have hq := inv_shutdown p hp
  refine ⟨shutdown_workersAlive p, shutdown_lifecycle p, shutdown_queue p, ?_⟩
  intro i hi
  have hlen : i < (shutdown p).subs.length := by
    rw [shutdown_subs]
    exact hi
  obtain ⟨c, hc1, hc2⟩ :=
    inv_all_fulfilled (shutdown p) hq (shutdown_queue p) i hlen
  rw [shutdown_subs] at hc1
  exact ⟨c, hc1, hc2⟩

/-- Witness for C2: a concrete one-worker pool with one accepted task is
reachable, and after shutdown its worker is joined and the task's handle is
fulfilled. -/
theorem claim_C2_witness :
    Reachable (submitAll (mkPool Nat 1) [Except.ok 7]) ∧
    ((shutdown (submitAll (mkPool Nat 1) [Except.ok 7])).workersAlive = 0 ∧
     (shutdown (submitAll (mkPool Nat 1) [Except.ok 7])).lifecycle = .Stopped ∧
     (shutdown (submitAll (mkPool Nat 1) [Except.ok 7])).queue = [] ∧
     ∀ i, i < (submitAll (mkPool Nat 1) [Except.ok 7]).subs.length →
       ∃ c, (submitAll (mkPool Nat 1) [Except.ok 7]).subs[i]? = some c ∧
         (shutdown (submitAll (mkPool Nat 1) [Except.ok 7])).handles i =
           HandleState.Fulfilled c) :=
  have hr : Reachable (submitAll (mkPool Nat 1) [Except.ok 7]) :=
    ⟨1, le_refl 1, rtg_submitAll [Except.ok 7] (mkPool Nat 1)⟩
  ⟨hr, claim_C2 (submitAll (mkPool Nat 1) [Except.ok 7]) hr⟩

/-- C8: a Result Handle is fulfilled at most once — across any step of the
pool, a fulfilled handle keeps exactly its cached outcome (fulfilled state
is immutable), and a handle fulfilled after the step was beforehand either
Pending or already fulfilled with that same outcome. -/
theorem claim_C8 (p q : Pool V) (hp : Inv p) (hs : Step p q) :
    (∀ i o, p.handles i = HandleState.Fulfilled o →
      q.handles i = HandleState.Fulfilled o) ∧
    (∀ i o, q.handles i = HandleState.Fulfilled o →
      p.handles i = HandleState.Pending ∨
      p.handles i = HandleState.Fulfilled o) := by
  cases hs with
  | doSubmit c =>
      by_cases hl : p.lifecycle = .Running
      · rw [submit_of_running p c hl]
        exact ⟨fun i o h => h, fun i o h => Or.inr h⟩
      · rw [submit_of_not_running p c hl]
        exact ⟨fun i o h => h, fun i o h => Or.inr h⟩
  | doWork w hw =>
      match hq : p.queue with
      | [] =>
          rw [workerStep_nil w p hq]
          exact ⟨fun i o h => h, fun i o h => Or.inr h⟩
      | t :: rest =>
          rw [workerStep_cons w p t rest hq]
          have hmemq : t.hid ∈ queueIds p := by simp [queueIds, hq]
          have hnotlog : t.hid ∉ logIds p :=
            (List.nodup_append.mp (inv_nodup p hp)).2.2 hmemq
          have hpend : p.handles t.hid = HandleState.Pending :=
            hp.hpending t.hid hnotlog
          constructor
          · intro i o h
            show (if i = t.hid then HandleState.Fulfilled t.run
              else p.handles i) = HandleState.Fulfilled o
            by_cases he : i = t.hid
            · subst he
              rw [h] at hpend
              exact absurd hpend (by simp)
            · rw [if_neg he]
              exact h
          · intro i o h
            have h2 : (if i = t.hid then HandleState.Fulfilled t.run
                else p.handles i) = HandleState.Fulfilled o := h
            by_cases he : i = t.hid
            · subst he
              exact Or.inl hpend
            · rw [if_neg he] at h2
              exact Or.inr h2
  | doDrain h =>
      have hb : beginDrain p = { p with lifecycle := .Draining } := by
        simp [beginDrain, h]
      rw [hb]
      exact ⟨fun i o h => h, fun i o h => Or.inr h⟩
  | doJoin h hq =>
      exact ⟨fun i o h => h, fun i o h => Or.inr h⟩

/-- Witness for C8 at a concrete invariant state and step: a worker
executing the single queued task of a one-worker pool. -/
theorem claim_C8_witness :
    Inv (submit (mkPool Nat 1) (Except.ok 5)).1 ∧
    ((∀ i o, (submit (mkPool Nat 1) (Except.ok 5)).1.handles i =
          HandleState.Fulfilled o →
        (workerStep 0 (submit (mkPool Nat 1) (Except.ok 5)).1).handles i =
          HandleState.Fulfilled o) ∧
     (∀ i o, (workerStep 0 (submit (mkPool Nat 1) (Except.ok 5)).1).handles i =
          HandleState.Fulfilled o →
        (submit (mkPool Nat 1) (Except.ok 5)).1.handles i =
          HandleState.Pending ∨
        (submit (mkPool Nat 1) (Except.ok 5)).1.handles i =
          HandleState.Fulfilled o)) :=
  have hinv : Inv (submit (mkPool Nat 1) (Except.ok 5)).1 :=
    inv_step (mkPool Nat 1) (submit (mkPool Nat 1) (Except.ok 5)).1
      (inv_mkPool 1 (le_refl 1)) (Step.doSubmit (mkPool Nat 1) (Except.ok 5))
  ⟨hinv, claim_C8 (submit (mkPool Nat 1) (Except.ok 5)).1
    (workerStep 0 (submit (mkPool Nat 1) (Except.ok 5)).1) hinv
    (Step.doWork (submit (mkPool Nat 1) (Except.ok 5)).1 0 (by decide))⟩

/-- C3: a callable that raises error E is accepted, the worker that
executes it catches E and stores it as the error outcome of the task's
handle, the worker survives (workersAlive is unchanged), get on that handle
surfaces E, and the pool stays Running and accepts further submissions. -/
theorem claim_C3 (p : Pool V) (E : String) (hp : Inv p)
    (hl : p.lifecycle = .Running) :
    (submit p (Except.error E)).2 = Except.ok p.subs.length ∧
    (drainAll (submit p (Except.error E)).1).handles p.subs.length =
      HandleState.Fulfilled (Except.error E) ∧
    get ((drainAll (submit p (Except.error E)).1).handles p.subs.length) =
      some (Except.error E, HandleState.Fulfilled (Except.error E)) ∧
    (drainAll (submit p (Except.error E)).1).workersAlive = p.workersAlive ∧
    (drainAll (submit p (Except.error E)).1).lifecycle = .Running ∧
    ∀ c2, (submit (drainAll (submit p (Except.error E)).1) c2).2 =
      Except.ok (drainAll (submit p (Except.error E)).1).subs.length := by
  have hs1 := submit_of_running p (Except.error E) hl
  have hP1 : (submit p (Except.error E)).1 =
      { p with queue := p.queue ++ [Task.mk p.subs.length (Except.error E)],
               subs := p.subs ++ [Except.error E] } := by
    rw [hs1]
  have hinv1 : Inv (submit p (Except.error E)).1 :=
    inv_step _ _ hp (Step.doSubmit p (Except.error E))
  have hwpos : 0 < (submit p (Except.error E)).1.workerCount := hinv1.wpos
  have hinv2 : Inv (drainAll (submit p (Except.error E)).1) :=
    inv_rtg _ _ hinv1 (rtg_drainAll _ hwpos)
  have hqe : (drainAll (submit p (Except.error E)).1).queue = [] :=
    drainAll_queue _
  have hsubs : (drainAll (submit p (Except.error E)).1).subs =
      p.subs ++ [Except.error E] := by
    rw [drainAll_subs, hP1]
  have hlen : p.subs.length <
      (drainAll (submit p (Except.error E)).1).subs.length := by
    rw [hsubs]
    simp
  obtain ⟨c, hc1, hc2⟩ :=
    inv_all_fulfilled _ hinv2 hqe p.subs.length hlen
  have hcE : c = Except.error E := by
    rw [hsubs, List.getElem?_concat_length] at hc1
    exact (Option.some.inj hc1).symm
  subst hcE
  have hrun : (drainAll (submit p (Except.error E)).1).lifecycle =
      .Running := by
    rw [drainAll_lifecycle, hP1]
    exact hl
  refine ⟨by rw [hs1], hc2, by rw [hc2]; rfl, ?_, hrun, ?_⟩
  · rw [drainAll_workersAlive, hP1]
  · intro c2
    rw [submit_of_running _ c2 hrun]

/-- Witness for C3: a one-worker pool given a callable that raises "boom"
fulfills the handle with that error and stays usable. -/
theorem claim_C3_witness :
    Inv (mkPool Nat 1) ∧ (mkPool Nat 1).lifecycle = .Running ∧
    (drainAll (submit (mkPool Nat 1) (Except.error "boom")).1).handles 0 =
      HandleState.Fulfilled (Except.error "boom") ∧
    get ((drainAll (submit (mkPool Nat 1) (Except.error "boom")).1).handles 0) =
      some (Except.error "boom",
        HandleState.Fulfilled (Except.error "boom")) :=
  have hinv : Inv (mkPool Nat 1) := inv_mkPool 1 (le_refl 1)
  ⟨hinv, rfl, (claim_C3 (mkPool Nat 1) "boom" hinv rfl).2.1,
    (claim_C3 (mkPool Nat 1) "boom" hinv rfl).2.2.1⟩

/-- C1: for every worker count N at least 1 and every list of M submitted
callables, running the pool to completion executes each of the M tasks
exactly once — each appears once in the execution log, under a single
worker entry — and the list of results observed through the M handles, as
a multiset, equals the multiset of outcomes of the M callables. -/
theorem claim_C1 (V : Type) (N : Nat) (hN : 1 ≤ N)
    (cs : List (Except String V)) :
    (∀ i, i < cs.length →
      (logIds (shutdown (submitAll (mkPool V N) cs))).count i = 1) ∧
    (∀ e1 e2, e1 ∈ (shutdown (submitAll (mkPool V N) cs)).execLog →
      e2 ∈ (shutdown (submitAll (mkPool V N) cs)).execLog →
      e1.2 = e2.2 → e1 = e2) ∧
    (((List.range cs.length).map
        (fun i => (shutdown (submitAll (mkPool V N) cs)).handles i) :
        Multiset (HandleState V)) =
      ((cs.map HandleState.Fulfilled : List (HandleState V)) :
        Multiset (HandleState V))) := by
  have hsubs0 : (submitAll (mkPool V N) cs).subs = cs := by
    have := (submitAll_running cs (mkPool V N) rfl).1
    simpa [mkPool] using this
  have hinv1 : Inv (submitAll (mkPool V N) cs) :=
    inv_rtg _ _ (inv_mkPool N hN) (rtg_submitAll cs (mkPool V N))
  have hinv2 : Inv (shutdown (submitAll (mkPool V N) cs)) :=
    inv_shutdown _ hinv1
  have hsubs : (shutdown (submitAll (mkPool V N) cs)).subs = cs := by
    rw [shutdown_subs]
    exact hsubs0
  have hqe := shutdown_queue (submitAll (mkPool V N) cs)
  have hqi : queueIds (shutdown (submitAll (mkPool V N) cs)) = [] := by
    simp [queueIds, hqe]
  have hperm : (logIds (shutdown (submitAll (mkPool V N) cs))).Perm
      (List.range cs.length) := by
    have h0 := hinv2.once
    rw [hqi, List.nil_append, hsubs] at h0
    exact h0
  refine ⟨?_, ?_, ?_⟩
  · intro i hi
    rw [hperm.count_eq, count_range_eq]
    simp [hi]
  · intro e1 e2 h1 h2 he
    have hnod : (logIds (shutdown (submitAll (mkPool V N) cs))).Nodup :=
      hperm.nodup_iff.mpr (List.nodup_range _)
    exact List.inj_on_of_nodup_map hnod h1 h2 he
  · have hpt : ∀ i, i < cs.length → ∃ c, cs[i]? = some c ∧
        (shutdown (submitAll (mkPool V N) cs)).handles i =
          HandleState.Fulfilled c := by
      intro i hi
      obtain ⟨c, hc1, hc2⟩ := inv_all_fulfilled _ hinv2 hqe i
        (by rw [hsubs]; exact hi)
      rw [hsubs] at hc1
      exact ⟨c, hc1, hc2⟩
    have hlist : (List.range cs.length).map
        (fun i => (shutdown (submitAll (mkPool V N) cs)).handles i) =
        cs.map HandleState.Fulfilled := by
      apply List.ext_getElem
      · simp
      · intro i hx hy
        simp only [List.getElem_map, List.getElem_range]
        have hi : i < cs.length := by simpa using hy
        obtain ⟨c, hc1, hc2⟩ := hpt i hi
        have h3 : cs[i]? = some cs[i] := List.getElem?_eq_getElem hi
        have h4 : cs[i] = c := by
          rw [h3] at hc1
          exact Option.some.inj hc1
        rw [hc2, h4]
    rw [hlist]

/-- Witness for C1: a two-worker pool given two callables, one returning a
value and one raising, executes each exactly once and the two handles
observe exactly the two outcomes. -/
theorem claim_C1_witness :
    (1 : Nat) ≤ 2 ∧
    (logIds (shutdown (submitAll (mkPool Nat 2)
      [Except.ok 1, Except.error "boom"]))).count 0 = 1 ∧
    (((List.range 2).map
        (fun i => (shutdown (submitAll (mkPool Nat 2)
          [Except.ok 1, Except.error "boom"])).handles i) :
        Multiset (HandleState Nat)) =
      (([Except.ok 1, Except.error "boom"].map HandleState.Fulfilled :
        List (HandleState Nat)) : Multiset (HandleState Nat))) :=
  ⟨by decide,
   (claim_C1 Nat 2 (by decide) [Except.ok 1, Except.error "boom"]).1 0
     (by decide),
   (claim_C1 Nat 2 (by decide) [Except.ok 1, Except.error "boom"]).2.2⟩

/-- C10: every accepted task is executed and its handle fulfilled
regardless of what the caller does with the returned handle: the
execution-relevant state after shutdown is entirely independent of the
handle table (so discarding a handle, or never calling get on it, cannot
cancel, remove, or block execution), and on every reachable pool each
accepted task's handle ends fulfilled without any get being involved. -/
theorem claim_C10 (V : Type) :
    (∀ (p : Pool V) (h : Nat → HandleState V),
      obs (shutdown { p with handles := h }) = obs (shutdown p)) ∧
    (∀ p : Pool V, Reachable p → ∀ i, i < p.subs.length →
      ∃ c, p.subs[i]? = some c ∧
        (shutdown p).handles i = HandleState.Fulfilled c) := by
  constructor
  · intro p h
    exact obs_shutdown_congr _ _ rfl
  · intro p hr i hi
    have hp := inv_reachable p hr
    have hq := inv_shutdown p hp
    obtain ⟨c, hc1, hc2⟩ := inv_all_fulfilled (shutdown p) hq
      (shutdown_queue p) i (by rw [shutdown_subs]; exact hi)
    rw [shutdown_subs] at hc1
    exact ⟨c, hc1, hc2⟩

/-- Witness for C10 with a value-less callable (V is Unit): overwriting the
handle table of a reachable one-task pool does not change the executed
work, and the task's handle is fulfilled after shutdown. -/
theorem claim_C10_witness :
    obs (shutdown { submitAll (mkPool Unit 1) [Except.ok ()] with
        handles := fun _ => HandleState.Pending }) =
      obs (shutdown (submitAll (mkPool Unit 1) [Except.ok ()])) ∧
    Reachable (submitAll (mkPool Unit 1) [Except.ok ()]) ∧
    ∃ c, (submitAll (mkPool Unit 1) [Except.ok ()]).subs[0]? = some c ∧
      (shutdown (submitAll (mkPool Unit 1) [Except.ok ()])).handles 0 =
        HandleState.Fulfilled c :=
  have hr : Reachable (submitAll (mkPool Unit 1) [Except.ok ()]) :=
    ⟨1, le_refl 1, rtg_submitAll [Except.ok ()] (mkPool Unit 1)⟩
  ⟨(claim_C10 Unit).1 (submitAll (mkPool Unit 1) [Except.ok ()])
      (fun _ => HandleState.Pending),
   hr,
   (claim_C10 Unit).2 (submitAll (mkPool Unit 1) [Except.ok ()]) hr 0
     (by decide)⟩

end ThreadPool
